import Mathlib

/-!
Verification of the identity codec and graph merge engine of
`src/backend/graph.js`, shallowly embedded in Lean.

JavaScript strings are modelled as Lean `String` (a wrapper over `List Char`);
JavaScript objects used as string-keyed dictionaries are modelled as ordered
association lists (`JsMap`); thrown JavaScript errors are modelled by the
inductive `JsError`, with one constructor per reachable throw site, carrying
the data that the source interpolates into the message.
-/

set_option autoImplicit false

namespace SourcecredGraph

/-- Helper for JavaScript `String.prototype.split` with a one-character
separator, on the character list of the string: `"a$b".split("$")` becomes
`splitAux sep ['a', sep, 'b'] = [['a'], ['b']]`, and the empty string splits
to `[[]]`, exactly as in JavaScript. -/
def splitAux (sep : Char) : List Char → List (List Char)
  | [] => [[]]
  | c :: cs =>
    if c = sep then [] :: splitAux sep cs
    else
      match splitAux sep cs with
      | [] => [[c]]
      | p :: ps => (c :: p) :: ps

/-- JavaScript `s.split(sep)` for a single-character separator. -/
def jsSplit (s : String) (sep : Char) : List String :=
  (splitAux sep s.data).map String.mk

/-- JavaScript `s.includes(sep)` for a single-character search string. -/
def jsIncludes (s : String) (sep : Char) : Bool :=
  s.data.contains sep

/-- JavaScript `Array.prototype.join` with a one-character separator, on
character lists; inverse direction of `splitAux`. -/
def joinSep (sep : Char) : List (List Char) → List Char
  | [] => []
  | [p] => p
  | p :: ps => p ++ sep :: joinSep sep ps

/-- Errors thrown by `src/backend/graph.js`, one constructor per reachable
throw site:
* `invalidIdField field value` — `idToString` throws
  `new Error("id." + field + " must not include \x22$\x22: " + escaped)`;
  the constructor records the field name interpolated into the message and
  the raw field value (whose JSON-escaping we do not model).
* `malformedToken value` — `stringToID` throws
  `new Error("Input should have exactly two $s: " + escaped)`.
* `typeErrorSplit` — in `mergeGraphsConsistent`, the conflict branches
  evaluate the template `distinct nodes with id ` + `stringToID(a.id)` where
  `a.id` is an ID object, not a string; inside `stringToID`,
  `string.split("$")` is then a method call on a non-string object, which in
  JavaScript raises `TypeError: string.split is not a function` before the
  intended `Error` message is ever built.  The constructor carries no data
  because the raised TypeError mentions no identifier. -/
inductive JsError where
  | invalidIdField (field : String) (value : String)
  | malformedToken (value : String)
  | typeErrorSplit
  deriving DecidableEq, Repr

/-- The `ID` record of the source: plugin name, repository name, local name. -/
structure ID where
  pluginName : String
  repositoryName : String
  name : String
  deriving DecidableEq, Repr

/-- The `GraphNode` record; the payload type is a parameter (the source uses
the Flow type `mixed`). -/
structure GraphNode (T : Type) where
  id : ID
  edges : List ID
  payload : T
  deriving DecidableEq, Repr

/-- The `GraphEdge` record; `weight : number` is modelled as `Int`, no claim
performs arithmetic on it. -/
structure GraphEdge (T : Type) where
  id : ID
  sourceId : ID
  destId : ID
  weight : Int
  payload : T
  deriving DecidableEq, Repr

/-- A JavaScript object used as a string-keyed dictionary, modelled as its
ordered entry list (JavaScript objects preserve insertion order for
non-numeric string keys). -/
abbrev JsMap (α : Type) : Type := List (String × α)

/-- JavaScript property read `m[k]`: the value at the first entry whose key
is `k`, if any. -/
def jsGet {α : Type} : JsMap α → String → Option α
  | [], _ => none
  | kv :: rest, k => if kv.1 = k then some kv.2 else jsGet rest k

/-- JavaScript `k in m`. -/
def jsHas {α : Type} : JsMap α → String → Bool
  | [], _ => false
  | kv :: rest, k => decide (kv.1 = k) || jsHas rest k

/-- JavaScript property write `m[k] = v`: replaces the value at an existing
key in place (keeping entry order), or appends a new entry. -/
def jsSet {α : Type} (m : JsMap α) (k : String) (v : α) : JsMap α :=
  if jsHas m k then m.map (fun kv => if kv.1 = k then (k, v) else kv)
  else m ++ [(k, v)]

/-- JavaScript `Object.keys m`. -/
def objKeys {α : Type} (m : JsMap α) : List String :=
  m.map (fun kv => kv.1)

/-- The `Graph` record of the source: string-keyed node and edge maps. -/
structure Graph (T : Type) where
  nodes : JsMap (GraphNode T)
  edges : JsMap (GraphEdge T)
  deriving DecidableEq, Repr

/-- `idToString` of `graph.js` (lines 28-42): reject any field containing the
separator, naming the offending field in the error, else join the three
fields with `$`. -/
def idToString (id : ID) : Except JsError String :=
  if jsIncludes id.pluginName '$' then
    .error (.invalidIdField "pluginName" id.pluginName)
  else if jsIncludes id.repositoryName '$' then
    .error (.invalidIdField "repositoryName" id.repositoryName)
  else if jsIncludes id.name '$' then
    .error (.invalidIdField "name" id.name)
  else
    .ok (id.pluginName ++ "$" ++ id.repositoryName ++ "$" ++ id.name)

/-- `stringToID` of `graph.js` (lines 44-55): split on `$`; error unless the
split has exactly three parts; else assemble the ID from the parts in order. -/
def stringToID (string : String) : Except JsError ID :=
  let parts := jsSplit string '$'
  if h : parts.length ≠ 3 then
    .error (.malformedToken string)
  else
    .ok
      { pluginName := parts.get ⟨0, by omega⟩
        repositoryName := parts.get ⟨1, by omega⟩
        name := parts.get ⟨2, by omega⟩ }

/-- Body of the `forEach` callback inside `mergeGraphs` (lines 64-68 for
nodes, 69-73 for edges): for a key already present in `result` it assigns
`result[key] = reducer(g1[key], g2[key])`; for a key not present it does
nothing (there is no else branch, so entries only in `g2` are never
inserted).  A reducer that throws is modelled by `Except`, aborting the fold
as the thrown error aborts `forEach`.  In the source the lookups `g1[key]`
and `g2[key]` always succeed in the taken branch, because `key` comes from
`Object.keys(g2)` and assignment at an existing key never changes the key
set; the unreachable `none` cases leave the accumulator unchanged. -/
def mergeStep {α : Type} (m1 m2 : JsMap α) (reducer : α → α → Except JsError α)
    (result : JsMap α) (key : String) : Except JsError (JsMap α) :=
  if jsHas result key then
    match jsGet m1 key, jsGet m2 key with
    | some a, some b => do
      let r ← reducer a b
      pure (jsSet result key r)
    | _, _ => pure result
  else pure result

/-- Core of `mergeGraphs` (lines 63-74), for one entity kind: start from a
copy of `g1`'s mapping and run the callback over `Object.keys(g2)`. -/
def mergeMaps {α : Type} (m1 m2 : JsMap α) (reducer : α → α → Except JsError α) :
    Except JsError (JsMap α) :=
  (objKeys m2).foldlM (mergeStep m1 m2 reducer) m1

/-- `mergeGraphs` of `graph.js` (lines 57-75): process nodes first, then
edges, with the respective reducers. -/
def mergeGraphs {T : Type} (g1 g2 : Graph T)
    (nodeReducer : GraphNode T → GraphNode T → Except JsError (GraphNode T))
    (edgeReducer : GraphEdge T → GraphEdge T → Except JsError (GraphEdge T)) :
    Except JsError (Graph T) := do
  let nodes ← mergeMaps g1.nodes g2.nodes nodeReducer
  let edges ← mergeMaps g1.edges g2.edges edgeReducer
  pure { nodes := nodes, edges := edges }

/-- `confluentNodeReducer` of `mergeGraphsConsistent` (lines 78-87).  The
source compares `JSON.stringify(a) === JSON.stringify(b)`; on records of this
fixed shape JSON serialization is injective (fields in declaration order,
faithful payload serialization), so the test is structural equality.  On
mismatch the source attempts to throw an `Error` naming the id, but building
that message raises a TypeError first (see `JsError.typeErrorSplit`). -/
def confluentNodeReducer {T : Type} [DecidableEq T] (a b : GraphNode T) :
    Except JsError (GraphNode T) :=
  if a = b then .ok a else .error .typeErrorSplit

/-- `confluentEdgeReducer` of `mergeGraphsConsistent` (lines 88-97); same
comparison and same failing throw as `confluentNodeReducer`. -/
def confluentEdgeReducer {T : Type} [DecidableEq T] (a b : GraphEdge T) :
    Except JsError (GraphEdge T) :=
  if a = b then .ok a else .error .typeErrorSplit

/-- `mergeGraphsConsistent` of `graph.js` (lines 77-99). -/
def mergeGraphsConsistent {T : Type} [DecidableEq T] (g1 g2 : Graph T) :
    Except JsError (Graph T) :=
  mergeGraphs g1 g2 confluentNodeReducer confluentEdgeReducer

/-- `mergeGraphsArbitrary` of `graph.js` (lines 101-103): both reducers keep
the incoming value and never throw. -/
def mergeGraphsArbitrary {T : Type} (g1 g2 : Graph T) :
    Except JsError (Graph T) :=
  mergeGraphs g1 g2 (fun _ b => .ok b) (fun _ b => .ok b)

/-- Empty graph over `String` payloads, for concrete scenarios. -/
def emptyGraph : Graph String :=
  { nodes := [], edges := [] }

/-- Concrete node `NodeA` of the spec scenario. -/
def nodeA : GraphNode String :=
  { id := { pluginName := "p", repositoryName := "r", name := "a" }
    edges := []
    payload := "A" }

/-- Concrete node `NodeA'` of the spec scenario: same id as `nodeA`, distinct
payload. -/
def nodeA2 : GraphNode String :=
  { id := { pluginName := "p", repositoryName := "r", name := "a" }
    edges := []
    payload := "A-changed" }

/-- Concrete node `NodeB` of the spec scenario. -/
def nodeB : GraphNode String :=
  { id := { pluginName := "p", repositoryName := "r", name := "b" }
    edges := []
    payload := "B" }

/-- Concrete node present only in the first input of the precedence scenario. -/
def nodeC : GraphNode String :=
  { id := { pluginName := "p", repositoryName := "r", name := "c" }
    edges := []
    payload := "C" }

/-- Single-node graph used for the merge-identity scenario. -/
def gSingle : Graph String :=
  { nodes := [("p$r$a", nodeA)], edges := [] }

/-- C1: the claim fails on the code.  For the inputs
`g1 = {nodes: {a: NodeA, c: NodeC}}` and `g2 = {nodes: {a: NodeA2, b: NodeB}}`,
`mergeGraphsArbitrary` does give `g2`'s value at the shared id `a` and keeps
the `g1`-only id `c`, but the id `b` present only in `g2` is absent from the
result (the source's merge loop has no branch inserting keys that are not
already in the accumulator), although `g2` holds `nodeB` there. -/
theorem mergeGraphsArbitrary_drops_g2_only_ids :
    mergeGraphsArbitrary
        { nodes := [("p$r$a", nodeA), ("p$r$c", nodeC)], edges := [] }
        { nodes := [("p$r$a", nodeA2), ("p$r$b", nodeB)], edges := [] }
      = .ok { nodes := [("p$r$a", nodeA2), ("p$r$c", nodeC)], edges := [] }
    ∧ jsGet ([("p$r$a", nodeA2), ("p$r$c", nodeC)] : JsMap (GraphNode String))
        "p$r$b" = none
    ∧ jsGet ([("p$r$a", nodeA2), ("p$r$b", nodeB)] : JsMap (GraphNode String))
        "p$r$b" = some nodeB :=
  ⟨rfl, rfl, rfl⟩

/-- C2: the claim fails on the code.  On the spec's concrete scenario,
`mergeGraphsArbitrary` returns a graph holding only the shared id (the
`g2`-only id `p$r$b` is dropped, not inserted), and `mergeGraphsConsistent`
raises the TypeError from `stringToID(a.id)` — an error naming no identifier
— rather than a MergeConflict naming `p$r$a`. -/
theorem concrete_scenario_eval :
    mergeGraphsArbitrary
        { nodes := [("p$r$a", nodeA)], edges := [] }
        { nodes := [("p$r$a", nodeA2), ("p$r$b", nodeB)], edges := [] }
      = .ok { nodes := [("p$r$a", nodeA2)], edges := [] }
    ∧ mergeGraphsConsistent
        { nodes := [("p$r$a", nodeA)], edges := [] }
        { nodes := [("p$r$a", nodeA2), ("p$r$b", nodeB)], edges := [] }
      = .error JsError.typeErrorSplit
    ∧ nodeA ≠ nodeA2 :=
  ⟨rfl, rfl, by decide⟩

/-- C5: the claim fails on the code.  Folding the single graph `gSingle` into
an empty accumulator yields the empty graph (its entries are never inserted),
under both policies, whereas initializing the accumulator as the first input
graph yields `gSingle`; the two initializations are not equivalent and
`merge([g])` via the empty accumulator is not `g`. -/
theorem merge_single_graph_eval :
    mergeGraphsArbitrary emptyGraph gSingle = .ok emptyGraph
    ∧ mergeGraphsConsistent emptyGraph gSingle = .ok emptyGraph
    ∧ mergeGraphsArbitrary gSingle emptyGraph = .ok gSingle
    ∧ mergeGraphsConsistent gSingle emptyGraph = .ok gSingle
    ∧ gSingle ≠ emptyGraph :=
  ⟨rfl, rfl, rfl, rfl, by decide⟩

/-- A split never produces the empty list of parts (JavaScript
`s.split(sep)` always yields at least one part). -/
theorem splitAux_ne_nil (sep : Char) (l : List Char) : splitAux sep l ≠ [] := by
  cases l with
  | nil => simp [splitAux]
  | cons c cs =>
    rw [splitAux]
    split
    · simp
    · split <;> simp

/-- Splitting a separator-free string yields the single part equal to it. -/
theorem splitAux_no_sep (sep : Char) (l : List Char) (h : sep ∉ l) :
    splitAux sep l = [l] := by
  induction l with
  | nil => rfl
  | cons c cs ih =>
    have hc : ¬(c = sep) := fun hh => h (hh ▸ List.mem_cons_self c cs)
    have hcs : sep ∉ cs := fun hh => h (List.mem_cons_of_mem c hh)
    rw [splitAux, if_neg hc, ih hcs]

/-- Splitting after a separator-free prefix peels off that prefix as the
first part. -/
theorem splitAux_append (sep : Char) (l rest : List Char) (h : sep ∉ l) :
    splitAux sep (l ++ sep :: rest) = l :: splitAux sep rest := by
  induction l with
  | nil => simp [splitAux]
  | cons c cs ih =>
    have hc : ¬(c = sep) := fun hh => h (hh ▸ List.mem_cons_self c cs)
    have hcs : sep ∉ cs := fun hh => h (List.mem_cons_of_mem c hh)
    rw [List.cons_append, splitAux, if_neg hc, ih hcs]

/-- Joining the parts of a split restores the original string. -/
theorem joinSep_splitAux (sep : Char) (l : List Char) :
    joinSep sep (splitAux sep l) = l := by
  induction l with
  | nil => rfl
  | cons c cs ih =>
    by_cases hc : c = sep
    · subst hc
      rw [splitAux, if_pos rfl]
      rcases hsp : splitAux c cs with _ | ⟨p, ps⟩
      · exact absurd hsp (splitAux_ne_nil c cs)
      · rw [hsp] at ih
        show c :: joinSep c (p :: ps) = c :: cs
        rw [ih]
    · rw [splitAux, if_neg hc]
      rcases hsp : splitAux sep cs with _ | ⟨p, ps⟩
      · exact absurd hsp (splitAux_ne_nil sep cs)
      · rw [hsp] at ih
        cases ps with
        | nil =>
          have hp : p = cs := ih
          show c :: p = c :: cs
          rw [hp]
        | cons q qs =>
          show c :: joinSep sep (p :: q :: qs) = c :: cs
          rw [ih]

/-- No part produced by a split contains the separator. -/
theorem not_mem_of_mem_splitAux (sep : Char) (l : List Char) :
    ∀ p ∈ splitAux sep l, sep ∉ p := by
  induction l with
  | nil =>
    intro p hp
    simp [splitAux] at hp
    subst hp
    simp
  | cons c cs ih =>
    intro p hp
    by_cases hc : c = sep
    · subst hc
      rw [splitAux, if_pos rfl] at hp
      rcases List.mem_cons.mp hp with h | h
      · subst h; simp
      · exact ih p h
    · rcases hsp : splitAux sep cs with _ | ⟨q, qs⟩
      · exact absurd hsp (splitAux_ne_nil sep cs)
      · rw [splitAux, if_neg hc, hsp] at hp
        rcases List.mem_cons.mp hp with h | h
        · subst h
          intro hmem
          rcases List.mem_cons.mp hmem with h1 | h1
          · exact hc h1.symm
          · exact ih q (by rw [hsp]; exact List.mem_cons_self q qs) h1
        · exact ih p (by rw [hsp]; exact List.mem_cons_of_mem q h)

/-- Rebuilding a string from its own character list is the identity. -/
theorem string_mk_data (s : String) : String.mk s.data = s := rfl

/-- Splitting the canonical three-field token on the separator recovers the
three fields, when each field is separator-free. -/
theorem jsSplit_join (p r n : String) (hp : '$' ∉ p.data) (hr : '$' ∉ r.data)
    (hn : '$' ∉ n.data) :
    jsSplit (p ++ "$" ++ r ++ "$" ++ n) '$' = [p, r, n] := by
  have hdata : (p ++ "$" ++ r ++ "$" ++ n).data
      = p.data ++ '$' :: (r.data ++ '$' :: n.data) := by
    simp [String.data_append]
  rw [jsSplit, hdata, splitAux_append _ _ _ hp, splitAux_append _ _ _ hr,
    splitAux_no_sep _ _ hn]
  simp [string_mk_data]

/-- C4: confirmed.  For every identifier whose three fields are free of the
separator character, encoding succeeds and decoding the resulting token
returns exactly the original identifier. -/
theorem roundtrip_encode_decode (i : ID)
    (hp : jsIncludes i.pluginName '$' = false)
    (hr : jsIncludes i.repositoryName '$' = false)
    (hn : jsIncludes i.name '$' = false) :
    ∃ t, idToString i = .ok t ∧ stringToID t = .ok i := by
  have hp' : '$' ∉ i.pluginName.data := by simpa [jsIncludes] using hp
  have hr' : '$' ∉ i.repositoryName.data := by simpa [jsIncludes] using hr
  have hn' : '$' ∉ i.name.data := by simpa [jsIncludes] using hn
  refine ⟨i.pluginName ++ "$" ++ i.repositoryName ++ "$" ++ i.name, ?_, ?_⟩
  · simp [idToString, hp, hr, hn]
  · have hsplit := jsSplit_join i.pluginName i.repositoryName i.name hp' hr' hn'
    simp [stringToID, hsplit]

/-- Witness for C4 at the concrete identifier `(plug, repo, x)`. -/
theorem roundtrip_encode_decode_witness :
    jsIncludes "plug" '$' = false ∧
      ∃ t, idToString { pluginName := "plug", repositoryName := "repo", name := "x" } = .ok t
        ∧ stringToID t = .ok { pluginName := "plug", repositoryName := "repo", name := "x" } :=
  ⟨by decide, roundtrip_encode_decode _ (by decide) (by decide) (by decide)⟩

/-- C6: confirmed.  `idToString` fails exactly when some field contains the
separator; any error it produces records a field name together with that
field's value, and the named field does contain the separator; on
separator-free fields it returns the canonical three-part token. -/
theorem idToString_spec (i : ID) :
    ((∃ e, idToString i = .error e) ↔
      (jsIncludes i.pluginName '$' = true ∨ jsIncludes i.repositoryName '$' = true
        ∨ jsIncludes i.name '$' = true))
    ∧ (∀ f v, idToString i = .error (.invalidIdField f v) →
        jsIncludes v '$' = true ∧
          ((f = "pluginName" ∧ v = i.pluginName)
            ∨ (f = "repositoryName" ∧ v = i.repositoryName)
            ∨ (f = "name" ∧ v = i.name)))
    ∧ (jsIncludes i.pluginName '$' = false → jsIncludes i.repositoryName '$' = false →
        jsIncludes i.name '$' = false →
        idToString i = .ok (i.pluginName ++ "$" ++ i.repositoryName ++ "$" ++ i.name)) := by
  cases hp : jsIncludes i.pluginName '$' <;>
    cases hr : jsIncludes i.repositoryName '$' <;>
      cases hn : jsIncludes i.name '$' <;>
        simp_all [idToString]

/-- Witness for C6: a field containing the separator makes encoding fail. -/
theorem idToString_spec_witness :
    ∃ e, idToString { pluginName := "a$", repositoryName := "b", name := "c" } = .error e :=
  (idToString_spec { pluginName := "a$", repositoryName := "b", name := "c" }).1.mpr
    (Or.inl (by decide))

/-- C7: confirmed.  `stringToID` fails exactly when the split does not have
three parts, and on a three-part split returns the identifier assembled from
the parts in order. -/
theorem stringToID_spec (t : String) :
    ((jsSplit t '$').length ≠ 3 → stringToID t = .error (.malformedToken t))
    ∧ (∀ a b c, jsSplit t '$' = [a, b, c] →
        stringToID t = .ok { pluginName := a, repositoryName := b, name := c }) := by
  constructor
  · intro h
    simp [stringToID, h]
  · intro a b c h
    simp [stringToID, h]

/-- Witness for C7 at the concrete token `a$b$c`. -/
theorem stringToID_spec_witness :
    stringToID "a$b$c" = .ok { pluginName := "a", repositoryName := "b", name := "c" } :=
  (stringToID_spec "a$b$c").2 "a" "b" "c" (by decide)

/-- C10: confirmed.  Every token that splits into exactly three parts decodes
successfully, and re-encoding the decoded identifier returns the original
token: the codec is a bijection between separator-free triples and
three-part tokens. -/
theorem roundtrip_decode_encode (t : String) (h3 : (jsSplit t '$').length = 3) :
    ∃ i, stringToID t = .ok i ∧ idToString i = .ok t := by
  have h3' : (splitAux '$' t.data).length = 3 := by
    simpa [jsSplit] using h3
  obtain ⟨la, lb, lc, hsp⟩ := List.length_eq_three.mp h3'
  have hla : '$' ∉ la := not_mem_of_mem_splitAux '$' t.data la (by rw [hsp]; simp)
  have hlb : '$' ∉ lb := not_mem_of_mem_splitAux '$' t.data lb (by rw [hsp]; simp)
  have hlc : '$' ∉ lc := not_mem_of_mem_splitAux '$' t.data lc (by rw [hsp]; simp)
  have hparts : jsSplit t '$' = [String.mk la, String.mk lb, String.mk lc] := by
    rw [jsSplit, hsp]
    rfl
  refine ⟨⟨String.mk la, String.mk lb, String.mk lc⟩, ?_, ?_⟩
  · simp [stringToID, hparts]
  · have hjoin : joinSep '$' [la, lb, lc] = t.data := by
      rw [← hsp, joinSep_splitAux]
    have hdata : (String.mk la ++ "$" ++ String.mk lb ++ "$" ++ String.mk lc).data
        = t.data := by
      rw [← hjoin]
      simp [String.data_append, joinSep]
    have htok : String.mk la ++ "$" ++ String.mk lb ++ "$" ++ String.mk lc = t := by
      cases t with
      | mk d => exact congrArg String.mk hdata
    rw [idToString]
    simp only [jsIncludes]
    rw [if_neg, if_neg, if_neg]
    · rw [htok]
    · simpa using hlc
    · simpa using hlb
    · simpa using hla

/-- Witness for C10 at the concrete token `x$y$z`. -/
theorem roundtrip_decode_encode_witness :
    (jsSplit "x$y$z" '$').length = 3 ∧
      ∃ i, stringToID "x$y$z" = .ok i ∧ idToString i = .ok "x$y$z" :=
  ⟨by decide, roundtrip_decode_encode "x$y$z" (by decide)⟩


/-- Binding a success in the `Except` monad applies the continuation. -/
theorem exceptBind_ok {e a b : Type} (x : a) (f : a → Except e b) :
    (Except.ok x >>= f) = f x := rfl

/-- Binding an error in the `Except` monad short-circuits, as a thrown
JavaScript error aborts the rest of the merge. -/
theorem exceptBind_error {e a b : Type} (err : e) (f : a → Except e b) :
    ((Except.error err : Except e a) >>= f) = Except.error err := rfl

/-- Key membership agrees with lookup success. -/
theorem jsHas_eq_isSome {α : Type} (m : JsMap α) (k : String) :
    jsHas m k = (jsGet m k).isSome := by
  induction m with
  | nil => rfl
  | cons kv rest ih =>
    by_cases hkv : kv.1 = k <;> simp [jsHas, jsGet, hkv, ih]

/-- A successful lookup means the key is among the object's keys. -/
theorem mem_objKeys_of_jsGet {α : Type} (m : JsMap α) (k : String) (v : α)
    (h : jsGet m k = some v) : k ∈ objKeys m := by
  induction m with
  | nil => simp [jsGet] at h
  | cons kv rest ih =>
    by_cases hkv : kv.1 = k
    · simp [objKeys, hkv]
    · rw [jsGet, if_neg hkv] at h
      exact List.mem_cons_of_mem _ (ih h)

/-- Updating an existing key in place stores the new value at that key. -/
theorem findSet_self {α : Type} (m : JsMap α) (k : String) (v : α)
    (h : jsHas m k = true) :
    jsGet (m.map (fun kv => if kv.1 = k then (k, v) else kv)) k = some v := by
  induction m with
  | nil => simp [jsHas] at h
  | cons kv rest ih =>
    by_cases hkv : kv.1 = k
    · simp [jsGet, hkv]
    · have h2 : jsHas rest k = true := by simpa [jsHas, hkv] using h
      simpa [jsGet, hkv] using ih h2

/-- Updating a key in place leaves lookups at other keys unchanged. -/
theorem findSet_ne {α : Type} (m : JsMap α) (k q : String) (v : α) (hne : q ≠ k) :
    jsGet (m.map (fun kv => if kv.1 = k then (k, v) else kv)) q = jsGet m q := by
  induction m with
  | nil => rfl
  | cons kv rest ih =>
    by_cases hkv : kv.1 = k
    · have hq : ¬(kv.1 = q) := fun hh => hne (by rw [← hh, hkv])
      have hkq : ¬(k = q) := fun hh => hne hh.symm
      simpa [jsGet, hkv, hq, hkq] using ih
    · by_cases hq : kv.1 = q
      · simp [jsGet, hq, hne]
      · simpa [jsGet, hkv, hq] using ih

/-- Appending a fresh key makes it found by lookup. -/
theorem findAppend_self {α : Type} (m : JsMap α) (k : String) (v : α)
    (h : jsHas m k = false) :
    jsGet (m ++ [(k, v)]) k = some v := by
  induction m with
  | nil => simp [jsGet]
  | cons kv rest ih =>
    have hkv : ¬(kv.1 = k) := by
      intro hh
      simp [jsHas, hh] at h
    have h2 : jsHas rest k = false := by simpa [jsHas, hkv] using h
    simpa [jsGet, hkv] using ih h2

/-- Appending a fresh key leaves lookups at other keys unchanged. -/
theorem findAppend_ne {α : Type} (m : JsMap α) (k q : String) (v : α) (hne : q ≠ k) :
    jsGet (m ++ [(k, v)]) q = jsGet m q := by
  induction m with
  | nil =>
    have hkq : ¬(k = q) := fun hh => hne (Eq.symm hh)
    simp [jsGet, hkq]
  | cons kv rest ih =>
    by_cases hq : kv.1 = q <;> simp [jsGet, hq, ih]

/-- Reading back a key just written returns the written value. -/
theorem jsGet_jsSet_self {α : Type} (m : JsMap α) (k : String) (v : α) :
    jsGet (jsSet m k v) k = some v := by
  rw [jsSet]
  by_cases h : jsHas m k = true
  · rw [if_pos h]
    exact findSet_self m k v h
  · rw [if_neg h]
    exact findAppend_self m k v (by simpa using h)

/-- Writing one key does not change any other key's value. -/
theorem jsGet_jsSet_ne {α : Type} (m : JsMap α) (k q : String) (v : α) (hne : q ≠ k) :
    jsGet (jsSet m k v) q = jsGet m q := by
  rw [jsSet]
  by_cases h : jsHas m k = true
  · rw [if_pos h]
    exact findSet_ne m k q v hne
  · rw [if_neg h]
    exact findAppend_ne m k q v hne

/-- A merge step at a key absent from the accumulator does nothing. -/
theorem mergeStep_skip {α : Type} (m1 m2 : JsMap α) (red : α → α → Except JsError α)
    (acc : JsMap α) (key : String) (h : jsHas acc key = false) :
    mergeStep m1 m2 red acc key = .ok acc := by
  rw [mergeStep, h]
  rfl

/-- A merge step at a key absent from `m2` does nothing. -/
theorem mergeStep_m2_none {α : Type} (m1 m2 : JsMap α) (red : α → α → Except JsError α)
    (acc : JsMap α) (key : String) (hm2 : jsGet m2 key = none) :
    mergeStep m1 m2 red acc key = .ok acc := by
  rw [mergeStep, hm2]
  by_cases h : jsHas acc key = true
  · rw [if_pos h]
    cases jsGet m1 key <;> rfl
  · rw [if_neg h]
    rfl

/-- A merge step whose reducer succeeds writes the reduced value. -/
theorem mergeStep_okEval {α : Type} (m1 m2 : JsMap α) (red : α → α → Except JsError α)
    (acc : JsMap α) (key : String) (a b r : α)
    (hhas : jsHas acc key = true) (hm1 : jsGet m1 key = some a)
    (hm2 : jsGet m2 key = some b) (hr : red a b = .ok r) :
    mergeStep m1 m2 red acc key = .ok (jsSet acc key r) := by
  rw [mergeStep, if_pos hhas, hm1, hm2]
  simp [hr]

/-- A merge step whose reducer throws propagates the error. -/
theorem mergeStep_errEval {α : Type} (m1 m2 : JsMap α) (red : α → α → Except JsError α)
    (acc : JsMap α) (key : String) (a b : α) (e : JsError)
    (hhas : jsHas acc key = true) (hm1 : jsGet m1 key = some a)
    (hm2 : jsGet m2 key = some b) (hr : red a b = .error e) :
    mergeStep m1 m2 red acc key = .error e := by
  rw [mergeStep, if_pos hhas, hm1, hm2]
  simp [hr]

/-- Folding merge steps over any key list preserves the accumulator's
pointwise agreement with `m1` and never throws, when the reducer is the
identity on agreeing values and the two maps agree on every shared key. -/
theorem mergeFold_agree {α : Type} (m1 m2 : JsMap α) (red : α → α → Except JsError α)
    (hred : ∀ a, red a a = .ok a)
    (hagree : ∀ k a b, jsGet m1 k = some a → jsGet m2 k = some b → a = b)
    (keys : List String) :
    ∀ acc : JsMap α, (∀ k, jsGet acc k = jsGet m1 k) →
      ∃ m, keys.foldlM (mergeStep m1 m2 red) acc = .ok m
        ∧ ∀ k, jsGet m k = jsGet m1 k := by
  induction keys with
  | nil =>
    intro acc hacc
    exact ⟨acc, rfl, hacc⟩
  | cons key rest ih =>
    intro acc hacc
    rw [List.foldlM_cons]
    by_cases hhas : jsHas acc key = true
    · cases hm1 : jsGet m1 key with
      | none =>
        exfalso
        have hiso := jsHas_eq_isSome acc key
        rw [hacc key, hm1, hhas] at hiso
        simp at hiso
      | some a =>
        cases hm2 : jsGet m2 key with
        | none =>
          rw [mergeStep_m2_none m1 m2 red acc key hm2, exceptBind_ok]
          exact ih acc hacc
        | some b =>
          have hab := hagree key a b hm1 hm2
          subst hab
          rw [mergeStep_okEval m1 m2 red acc key a a a hhas hm1 hm2 (hred a),
            exceptBind_ok]
          apply ih
          intro k
          by_cases hk : k = key
          · subst hk
            rw [jsGet_jsSet_self, hm1]
          · rw [jsGet_jsSet_ne _ _ _ _ hk, hacc k]
    · rw [mergeStep_skip m1 m2 red acc key (by simpa using hhas), exceptBind_ok]
      exact ih acc hacc

/-- Merging maps that agree on every shared key succeeds, and the result
looks up exactly like `m1` at every key. -/
theorem mergeMaps_agree {α : Type} (m1 m2 : JsMap α) (red : α → α → Except JsError α)
    (hred : ∀ a, red a a = .ok a)
    (hagree : ∀ k a b, jsGet m1 k = some a → jsGet m2 k = some b → a = b) :
    ∃ m, mergeMaps m1 m2 red = .ok m ∧ ∀ k, jsGet m k = jsGet m1 k := by
  rw [mergeMaps]
  exact mergeFold_agree m1 m2 red hred hagree (objKeys m2) m1 (fun _ => rfl)

/-- Folding merge steps over a key list containing a conflicting shared key
throws the reducer's error, for a confluent-style reducer. -/
theorem mergeFold_conflict {α : Type} (m1 m2 : JsMap α) (red : α → α → Except JsError α)
    (hred : ∀ a, red a a = .ok a)
    (hbad : ∀ a b, a ≠ b → red a b = .error .typeErrorSplit)
    (keys : List String) :
    ∀ acc : JsMap α, (∀ k, jsGet acc k = jsGet m1 k) →
      (∃ k ∈ keys, ∃ a b, jsGet m1 k = some a ∧ jsGet m2 k = some b ∧ a ≠ b) →
      keys.foldlM (mergeStep m1 m2 red) acc = .error JsError.typeErrorSplit := by
  induction keys with
  | nil =>
    intro acc hacc hconf
    simp at hconf
  | cons key rest ih =>
    intro acc hacc hconf
    rw [List.foldlM_cons]
    by_cases hkc : ∃ a b, jsGet m1 key = some a ∧ jsGet m2 key = some b ∧ a ≠ b
    · obtain ⟨a, b, hm1, hm2, hab⟩ := hkc
      have hhas : jsHas acc key = true := by
        rw [jsHas_eq_isSome, hacc key, hm1]
        rfl
      rw [mergeStep_errEval m1 m2 red acc key a b JsError.typeErrorSplit hhas hm1 hm2
        (hbad a b hab), exceptBind_error]
    · have hrest : ∃ k ∈ rest, ∃ a b,
          jsGet m1 k = some a ∧ jsGet m2 k = some b ∧ a ≠ b := by
        obtain ⟨k, hkmem, a, b, h1, h2, hne⟩ := hconf
        rcases List.mem_cons.mp hkmem with hk | hk
        · exact absurd ⟨a, b, hk ▸ h1, hk ▸ h2, hne⟩ hkc
        · exact ⟨k, hk, a, b, h1, h2, hne⟩
      by_cases hhas : jsHas acc key = true
      · cases hm1 : jsGet m1 key with
        | none =>
          exfalso
          have hiso := jsHas_eq_isSome acc key
          rw [hacc key, hm1, hhas] at hiso
          simp at hiso
        | some a =>
          cases hm2 : jsGet m2 key with
          | none =>
            rw [mergeStep_m2_none m1 m2 red acc key hm2, exceptBind_ok]
            exact ih acc hacc hrest
          | some b =>
            have hab : a = b := by
              by_contra hne
              exact hkc ⟨a, b, hm1, hm2, hne⟩
            subst hab
            rw [mergeStep_okEval m1 m2 red acc key a a a hhas hm1 hm2 (hred a),
              exceptBind_ok]
            refine ih _ ?_ hrest
            intro k
            by_cases hk : k = key
            · subst hk
              rw [jsGet_jsSet_self, hm1]
            · rw [jsGet_jsSet_ne _ _ _ _ hk, hacc k]
      · rw [mergeStep_skip m1 m2 red acc key (by simpa using hhas), exceptBind_ok]
        exact ih acc hacc hrest

/-- Merging maps that disagree on some shared key throws the confluent
reducer's error. -/
theorem mergeMaps_conflict {α : Type} (m1 m2 : JsMap α) (red : α → α → Except JsError α)
    (hred : ∀ a, red a a = .ok a)
    (hbad : ∀ a b, a ≠ b → red a b = .error .typeErrorSplit)
    (hconf : ∃ k a b, jsGet m1 k = some a ∧ jsGet m2 k = some b ∧ a ≠ b) :
    mergeMaps m1 m2 red = .error JsError.typeErrorSplit := by
  rw [mergeMaps]
  obtain ⟨k, a, b, h1, h2, hne⟩ := hconf
  exact mergeFold_conflict m1 m2 red hred hbad (objKeys m2) m1 (fun _ => rfl)
    ⟨k, mem_objKeys_of_jsGet m2 k b h2, a, b, h1, h2, hne⟩

/-- C8: confirmed.  When every node id and edge id shared by the two graphs
carries structurally equal values in both, `mergeGraphsConsistent` succeeds,
and the merged graph's entry at every shared id is the common value. -/
theorem mergeGraphsConsistent_agree {T : Type} [DecidableEq T] (g1 g2 : Graph T)
    (hn : ∀ k a b, jsGet g1.nodes k = some a → jsGet g2.nodes k = some b → a = b)
    (he : ∀ k a b, jsGet g1.edges k = some a → jsGet g2.edges k = some b → a = b) :
    ∃ g, mergeGraphsConsistent g1 g2 = .ok g
      ∧ (∀ k a b, jsGet g1.nodes k = some a → jsGet g2.nodes k = some b →
          jsGet g.nodes k = some a)
      ∧ (∀ k a b, jsGet g1.edges k = some a → jsGet g2.edges k = some b →
          jsGet g.edges k = some a) := by
  obtain ⟨mn, hmn, hmn2⟩ := mergeMaps_agree g1.nodes g2.nodes confluentNodeReducer
    (fun a => by simp [confluentNodeReducer]) hn
  obtain ⟨me, hme, hme2⟩ := mergeMaps_agree g1.edges g2.edges confluentEdgeReducer
    (fun a => by simp [confluentEdgeReducer]) he
  refine ⟨{ nodes := mn, edges := me }, ?_, ?_, ?_⟩
  · rw [mergeGraphsConsistent, mergeGraphs, hmn, exceptBind_ok, hme, exceptBind_ok]
    rfl
  · intro k a b h1 _
    rw [hmn2 k, h1]
  · intro k a b h1 _
    rw [hme2 k, h1]

/-- Witness for C8: merging a graph with itself succeeds and keeps its
entries. -/
theorem mergeGraphsConsistent_agree_witness :
    ∃ g, mergeGraphsConsistent gSingle gSingle = .ok g
      ∧ (∀ k a b, jsGet gSingle.nodes k = some a → jsGet gSingle.nodes k = some b →
          jsGet g.nodes k = some a)
      ∧ (∀ k a b, jsGet gSingle.edges k = some a → jsGet gSingle.edges k = some b →
          jsGet g.edges k = some a) :=
  mergeGraphsConsistent_agree gSingle gSingle
    (fun _ a b h1 h2 => by rw [h1] at h2; exact Option.some.inj h2)
    (fun _ a b h1 h2 => by rw [h1] at h2; exact Option.some.inj h2)

/-- C3: the claim fails on the code.  Whenever the two graphs hold
structurally unequal values at some shared node or edge id, the confluent
merge does fail — but the error it raises is the TypeError produced while
building the conflict message (`stringToID` applied to an ID object), which
carries no identifier, not a MergeConflict naming the offending id. -/
theorem mergeGraphsConsistent_conflict {T : Type} [DecidableEq T] (g1 g2 : Graph T)
    (h : (∃ k a b, jsGet g1.nodes k = some a ∧ jsGet g2.nodes k = some b ∧ a ≠ b)
       ∨ (∃ k a b, jsGet g1.edges k = some a ∧ jsGet g2.edges k = some b ∧ a ≠ b)) :
    mergeGraphsConsistent g1 g2 = .error JsError.typeErrorSplit := by
  by_cases hnc : ∃ k a b, jsGet g1.nodes k = some a ∧ jsGet g2.nodes k = some b ∧ a ≠ b
  · have herr := mergeMaps_conflict g1.nodes g2.nodes confluentNodeReducer
      (fun a => by simp [confluentNodeReducer])
      (fun a b hab => by simp [confluentNodeReducer, hab]) hnc
    rw [mergeGraphsConsistent, mergeGraphs, herr, exceptBind_error]
  · have hec : ∃ k a b, jsGet g1.edges k = some a ∧ jsGet g2.edges k = some b ∧ a ≠ b := by
      rcases h with hno | hed
      · exact absurd hno hnc
      · exact hed
    have hn : ∀ k a b, jsGet g1.nodes k = some a → jsGet g2.nodes k = some b → a = b := by
      intro k a b h1 h2
      by_contra hne
      exact hnc ⟨k, a, b, h1, h2, hne⟩
    obtain ⟨mn, hmn, hmn2⟩ := mergeMaps_agree g1.nodes g2.nodes confluentNodeReducer
      (fun a => by simp [confluentNodeReducer]) hn
    have herr := mergeMaps_conflict g1.edges g2.edges confluentEdgeReducer
      (fun a => by simp [confluentEdgeReducer])
      (fun a b hab => by simp [confluentEdgeReducer, hab]) hec
    rw [mergeGraphsConsistent, mergeGraphs, hmn, exceptBind_ok, herr, exceptBind_error]

/-- Witness for C3 at two single-node graphs sharing one id with different
payloads. -/
theorem mergeGraphsConsistent_conflict_witness :
    mergeGraphsConsistent
        { nodes := [("p$r$a", nodeA)], edges := ([] : JsMap (GraphEdge String)) }
        { nodes := [("p$r$a", nodeA2)], edges := [] }
      = .error JsError.typeErrorSplit :=
  mergeGraphsConsistent_conflict _ _
    (Or.inl ⟨"p$r$a", nodeA, nodeA2, by simp [jsGet], by simp [jsGet], by decide⟩)

end SourcecredGraph
